import Mathlib

/-!
Verification of the document-preparation component of the repository
(`src/app.py`): the functions `estimate_tokens` and
`truncate_text_for_analysis`.  Text is modelled as `List Char`, Python
integers as `Int` (arbitrary precision, no overflow).
-/

set_option maxHeartbeats 1000000
set_option maxRecDepth 40000

namespace DocPrep

/-- Python slice `s[:k]`.  For `k ≥ 0` this keeps the first `k` elements
(clamped at the length); for `k < 0` it keeps the first `len(s) + k`
elements, clamped below at `0`. -/
def pySliceTo (s : List Char) (k : Int) : List Char :=
  if k < 0 then s.take (((s.length : Int) + k).toNat) else s.take k.toNat

/-- Python `s.rfind(c)` for a one-character needle: the index of the last
occurrence of `c` in `s`, or `-1` if `c` does not occur. -/
def rfind (c : Char) : List Char → Int
  | [] => -1
  | x :: xs =>
    if 0 ≤ rfind c xs then rfind c xs + 1
    else if x = c then 0 else -1

/-- Embedding of `truncate_text_for_analysis` (src/app.py lines 67-82):

    if len(text) <= max_chars: return text, False
    truncated = text[:max_chars]
    last_period = truncated.rfind('.')
    last_newline = truncated.rfind('\n')
    boundary = max(last_period, last_newline)
    if boundary > max_chars * 0.8:
        truncated = truncated[:boundary + 1]
    return truncated, True

The comparison `boundary > max_chars * 0.8` is evaluated by Python in
IEEE-754 doubles.  We model it by the exact rational comparison
`5 * boundary > 4 * max_chars`, which agrees with the float comparison
for every `|max_chars| < 2^50`: the double nearest `0.8` is
`0.8 + 0.2 * 2^-52`, so the exact product is `0.8 * max_chars` plus an
error below half an ulp (in the tie case `5 * boundary = 4 * max_chars`
the product `max_chars * 0.8` rounds back to exactly `0.8 * max_chars`,
and otherwise the two integer sides differ by at least `1/5`, far above
the rounding error). -/
def truncate_text_for_analysis (text : List Char) (max_chars : Int) :
    List Char × Bool :=
  if (text.length : Int) ≤ max_chars then (text, false)
  else
    let truncated := pySliceTo text max_chars
    let last_period := rfind '.' truncated
    let last_newline := rfind '\n' truncated
    let boundary := max last_period last_newline
    if 5 * boundary > 4 * max_chars then
      (pySliceTo truncated (boundary + 1), true)
    else
      (truncated, true)

/-- The boundary offset computed inside `truncate_text_for_analysis`:
the rightmost of the last `'.'` and the last newline in the
`max_chars`-prefix (`-1` when neither occurs). -/
def bnd (text : List Char) (max_chars : Int) : Int :=
  max (rfind '.' (pySliceTo text max_chars))
    (rfind '\n' (pySliceTo text max_chars))

/-- Embedding of the fallback branch of `estimate_tokens`
(src/app.py line 65): `len(text) // 4`.  The primary branch calls the
external `tiktoken` library and is outside this repository. -/
def estimate_tokens_fallback (text : List Char) : Nat :=
  text.length / 4

/- ### Basic lemmas about the primitives -/

theorem rfind_ge_neg_one (c : Char) (s : List Char) : -1 ≤ rfind c s := by
  induction s with
  | nil => simp [rfind]
  | cons x xs ih =>
    simp only [rfind]
    split
    · omega
    · split <;> omega

theorem rfind_lt_length (c : Char) (s : List Char) :
    rfind c s < (s.length : Int) := by
  induction s with
  | nil => simp [rfind]
  | cons x xs ih =>
    simp only [rfind, List.length_cons]
    split
    · push_cast; omega
    · split <;> (push_cast; omega)

theorem rfind_eq_neg_one_of_not_mem (c : Char) (s : List Char)
    (h : c ∉ s) : rfind c s = -1 := by
  induction s with
  | nil => simp [rfind]
  | cons x xs ih =>
    simp only [List.mem_cons, not_or] at h
    simp only [rfind, ih h.2]
    simp [Ne.symm h.1]

theorem rfind_get (c : Char) (s : List Char) (h : 0 ≤ rfind c s) :
    s.get? (rfind c s).toNat = some c := by
  induction s with
  | nil => simp [rfind] at h
  | cons x xs ih =>
    by_cases hx : 0 ≤ rfind c xs
    · have hr : rfind c (x :: xs) = rfind c xs + 1 := by
        simp [rfind, hx]
      rw [hr]
      have : (rfind c xs + 1).toNat = (rfind c xs).toNat + 1 := by omega
      rw [this]
      simpa using ih hx
    · by_cases hxc : x = c
      · have hr : rfind c (x :: xs) = 0 := by
          simp [rfind, hx, hxc]
        rw [hr]
        simp [hxc]
      · have hr : rfind c (x :: xs) = -1 := by
          simp [rfind, hx, hxc]
        rw [hr] at h
        omega

theorem pySliceTo_eq_take (s : List Char) (k : Int) (h : 0 ≤ k) :
    pySliceTo s k = s.take k.toNat := by
  simp [pySliceTo, not_lt.mpr h]

theorem pySliceTo_append (s : List Char) (k : Int) :
    ∃ rest, pySliceTo s k ++ rest = s := by
  unfold pySliceTo
  split
  · exact ⟨s.drop (((s.length : Int) + k).toNat), List.take_append_drop _ _⟩
  · exact ⟨s.drop k.toNat, List.take_append_drop _ _⟩

theorem length_pySliceTo_le (s : List Char) (k : Int) (h : 0 ≤ k) :
    ((pySliceTo s k).length : Int) ≤ k := by
  rw [pySliceTo_eq_take s k h]
  have := List.length_take_le k.toNat s
  omega

theorem length_pySliceTo_of_lt (s : List Char) (k : Int) (h0 : 0 ≤ k)
    (h : k < (s.length : Int)) : ((pySliceTo s k).length : Int) = k := by
  rw [pySliceTo_eq_take s k h0]
  rw [List.length_take]
  omega

theorem length_pySliceTo_le_length (s : List Char) (k : Int) :
    (pySliceTo s k).length ≤ s.length := by
  unfold pySliceTo
  split <;> (rw [List.length_take]; omega)

/- ### Normal forms of `truncate_text_for_analysis` -/

theorem truncate_eq_of_le (text : List Char) (mc : Int)
    (h : (text.length : Int) ≤ mc) :
    truncate_text_for_analysis text mc = (text, false) := by
  unfold truncate_text_for_analysis
  rw [if_pos h]

theorem truncate_eq_of_lt (text : List Char) (mc : Int)
    (h : ¬ (text.length : Int) ≤ mc) :
    truncate_text_for_analysis text mc =
      if 5 * bnd text mc > 4 * mc then
        (pySliceTo (pySliceTo text mc) (bnd text mc + 1), true)
      else (pySliceTo text mc, true) := by
  unfold truncate_text_for_analysis
  rw [if_neg h]
  rfl

theorem truncate_snd_true (text : List Char) (mc : Int)
    (h : ¬ (text.length : Int) ≤ mc) :
    (truncate_text_for_analysis text mc).2 = true := by
  rw [truncate_eq_of_lt text mc h]
  split <;> rfl

theorem truncate_fst_length_le (text : List Char) (mc : Int) (h0 : 0 ≤ mc) :
    ((truncate_text_for_analysis text mc).1.length : Int) ≤ mc := by
  by_cases h : (text.length : Int) ≤ mc
  · rw [truncate_eq_of_le text mc h]
    exact h
  · rw [truncate_eq_of_lt text mc h]
    split
    · show ((pySliceTo (pySliceTo text mc) (bnd text mc + 1)).length : Int) ≤ mc
      refine le_trans ?_ (length_pySliceTo_le text mc h0)
      exact_mod_cast length_pySliceTo_le_length (pySliceTo text mc) (bnd text mc + 1)
    · show ((pySliceTo text mc).length : Int) ≤ mc
      exact length_pySliceTo_le text mc h0

/- ### Claim theorems -/

/-- C1: for every text and every positive `max_chars` with
`length(text) > max_chars`, `truncate_text_for_analysis` returns a pair
whose text has length at most `max_chars` and whose truncated flag is
`true`. -/
theorem truncate_long_bound (text : List Char) (max_chars : Int)
    (hlen : max_chars < (text.length : Int)) (hpos : 0 < max_chars) :
    ((truncate_text_for_analysis text max_chars).1.length : Int) ≤ max_chars ∧
      (truncate_text_for_analysis text max_chars).2 = true :=
  ⟨truncate_fst_length_le text max_chars (le_of_lt hpos),
    truncate_snd_true text max_chars (not_le.mpr hlen)⟩

/-- Witness for C1 at `text = "abc"`, `max_chars = 2`. -/
theorem truncate_long_bound_check :
    ((truncate_text_for_analysis ['a', 'b', 'c'] 2).1.length : Int) ≤ 2 ∧
      (truncate_text_for_analysis ['a', 'b', 'c'] 2).2 = true :=
  truncate_long_bound ['a', 'b', 'c'] 2 (by decide) (by decide)

/-- C2: for every text and every positive `max_chars` with
`length(text) <= max_chars` (including the empty text),
`truncate_text_for_analysis` returns the input unchanged with the
truncated flag `false`. -/
theorem truncate_short_id (text : List Char) (max_chars : Int)
    (_hpos : 0 < max_chars) (hle : (text.length : Int) ≤ max_chars) :
    truncate_text_for_analysis text max_chars = (text, false) :=
  truncate_eq_of_le text max_chars hle

/-- Witness for C2 at the empty text and `max_chars = 1`. -/
theorem truncate_short_id_check :
    truncate_text_for_analysis [] 1 = ([], false) :=
  truncate_short_id [] 1 (by decide) (by decide)

theorem getLast?_take_succ (s : List Char) (k : Nat) (h : k < s.length) :
    (s.take (k + 1)).getLast? = s.get? k := by
  rw [List.getLast?_eq_getElem?, List.get?_eq_getElem?, List.length_take]
  have hk : min (k + 1) s.length - 1 = k := by omega
  rw [hk, List.getElem?_take]
  simp

theorem bnd_lt_length (text : List Char) (mc : Int) :
    bnd text mc < ((pySliceTo text mc).length : Int) :=
  max_lt (rfind_lt_length '.' (pySliceTo text mc))
    (rfind_lt_length '\n' (pySliceTo text mc))

theorem bnd_get (text : List Char) (mc : Int) (h : 0 ≤ bnd text mc) :
    (pySliceTo text mc).get? (bnd text mc).toNat = some '.' ∨
      (pySliceTo text mc).get? (bnd text mc).toNat = some '\n' := by
  rcases max_choice (rfind '.' (pySliceTo text mc))
      (rfind '\n' (pySliceTo text mc)) with hc | hc
  · left
    have hb : bnd text mc = rfind '.' (pySliceTo text mc) := hc
    rw [hb] at h ⊢
    exact rfind_get '.' (pySliceTo text mc) h
  · right
    have hb : bnd text mc = rfind '\n' (pySliceTo text mc) := hc
    rw [hb] at h ⊢
    exact rfind_get '\n' (pySliceTo text mc) h

/-- C3 counterexample: with `text = "aaaaaaaa.ab"` and `max_chars = 10`
the rightmost boundary offset in the 10-character prefix is `8`, which
lies exactly at 80% of `max_chars` ("at or after 80%" holds, since
`5 * 8 ≥ 4 * 10`), yet the code keeps the raw hard cut `"aaaaaaaa.a"`
instead of cutting after the `'.'`: the comparison in the source is
strict (`boundary > max_chars * 0.8`). -/
theorem truncate_boundary_at_eighty_cex :
    (10 : Int) < ((("aaaaaaaa.ab".toList)).length : Int) ∧
      bnd ("aaaaaaaa.ab".toList) 10 = 8 ∧
      4 * (10 : Int) ≤ 5 * 8 ∧
      (truncate_text_for_analysis ("aaaaaaaa.ab".toList) 10).1 =
        "aaaaaaaa.a".toList ∧
      (truncate_text_for_analysis ("aaaaaaaa.ab".toList) 10).1 ≠
        "aaaaaaaa.".toList := by
  decide

/-- C3 (amended): the boundary cut happens when the rightmost boundary
offset lies strictly after 80% of `max_chars` (`boundary > 0.8 * max_chars`,
i.e. `5 * boundary > 4 * max_chars`), in which case the prefix is cut at
the boundary offset plus one, so the returned text ends with the boundary
character. -/
theorem truncate_boundary_cut (text : List Char) (max_chars : Int)
    (hlen : max_chars < (text.length : Int)) (hpos : 0 < max_chars)
    (hb : 5 * bnd text max_chars > 4 * max_chars) :
    truncate_text_for_analysis text max_chars =
      (pySliceTo (pySliceTo text max_chars) (bnd text max_chars + 1), true) ∧
      (truncate_text_for_analysis text max_chars).1.getLast? =
        (pySliceTo text max_chars).get? (bnd text max_chars).toNat := by
  have heq : truncate_text_for_analysis text max_chars =
      (pySliceTo (pySliceTo text max_chars) (bnd text max_chars + 1), true) := by
    rw [truncate_eq_of_lt text max_chars (not_le.mpr hlen)]
    rw [if_pos hb]
  refine ⟨heq, ?_⟩
  rw [heq]
  have h0 : 0 ≤ bnd text max_chars := by omega
  have h1 : pySliceTo (pySliceTo text max_chars) (bnd text max_chars + 1) =
      (pySliceTo text max_chars).take ((bnd text max_chars).toNat + 1) := by
    rw [pySliceTo_eq_take _ _ (by omega)]
    congr 1
    omega
  have h2 : (bnd text max_chars).toNat < (pySliceTo text max_chars).length := by
    have := bnd_lt_length text max_chars
    omega
  show (pySliceTo (pySliceTo text max_chars) (bnd text max_chars + 1)).getLast? =
    (pySliceTo text max_chars).get? (bnd text max_chars).toNat
  rw [h1]
  exact getLast?_take_succ (pySliceTo text max_chars) (bnd text max_chars).toNat h2

/-- Witness for the amended C3 at the spec's own example
`text = "A" * 100 ++ ". " ++ "B" * 50`, `max_chars = 120`: the result is
cut immediately after the `'.'` at offset 100 (which is strictly after
80% of 120), not at the hard 120-character mark. -/
theorem truncate_boundary_cut_check :
    (truncate_text_for_analysis
        (List.replicate 100 'A' ++ ['.', ' '] ++ List.replicate 50 'B') 120 =
      (pySliceTo
        (pySliceTo (List.replicate 100 'A' ++ ['.', ' '] ++ List.replicate 50 'B') 120)
        (bnd (List.replicate 100 'A' ++ ['.', ' '] ++ List.replicate 50 'B') 120 + 1),
        true) ∧
      (truncate_text_for_analysis
        (List.replicate 100 'A' ++ ['.', ' '] ++ List.replicate 50 'B') 120).1.getLast? =
        (pySliceTo (List.replicate 100 'A' ++ ['.', ' '] ++ List.replicate 50 'B') 120).get?
          (bnd (List.replicate 100 'A' ++ ['.', ' '] ++ List.replicate 50 'B') 120).toNat) ∧
    (truncate_text_for_analysis
      (List.replicate 100 'A' ++ ['.', ' '] ++ List.replicate 50 'B') 120).1 =
      List.replicate 100 'A' ++ ['.'] :=
  ⟨truncate_boundary_cut
      (List.replicate 100 'A' ++ ['.', ' '] ++ List.replicate 50 'B') 120
      (by decide) (by decide) (by decide),
    by decide⟩

/-- C4: when the text contains no `'.'` and no newline anywhere and
`length(text) > max_chars > 0`, the result is exactly the first
`max_chars` characters with the truncated flag `true`. -/
theorem truncate_hard_cut (text : List Char) (max_chars : Int)
    (hlen : max_chars < (text.length : Int)) (hpos : 0 < max_chars)
    (hp : '.' ∉ text) (hn : '\n' ∉ text) :
    truncate_text_for_analysis text max_chars =
      (text.take max_chars.toNat, true) := by
  have hp' : '.' ∉ pySliceTo text max_chars := by
    intro hm
    apply hp
    rw [pySliceTo_eq_take _ _ (le_of_lt hpos)] at hm
    exact List.take_subset _ _ hm
  have hn' : '\n' ∉ pySliceTo text max_chars := by
    intro hm
    apply hn
    rw [pySliceTo_eq_take _ _ (le_of_lt hpos)] at hm
    exact List.take_subset _ _ hm
  have hb : bnd text max_chars = -1 := by
    unfold bnd
    rw [rfind_eq_neg_one_of_not_mem '.' _ hp',
      rfind_eq_neg_one_of_not_mem '\n' _ hn']
    rfl
  rw [truncate_eq_of_lt text max_chars (not_le.mpr hlen), hb, if_neg (by omega)]
  rw [pySliceTo_eq_take _ _ (le_of_lt hpos)]

/-- Witness for C4 at `text = "x" * 51`, `max_chars = 50`. -/
theorem truncate_hard_cut_check :
    truncate_text_for_analysis (List.replicate 51 'x') 50 =
      ((List.replicate 51 'x').take ((50 : Int)).toNat, true) :=
  truncate_hard_cut (List.replicate 51 'x') 50 (by decide) (by decide)
    (by decide) (by decide)

/-- C5 counterexample: for `text = "ab"` and `max_chars = 1` the first
preparation returns `("a", true)`, but re-preparing `"a"` returns
`("a", false)`: the truncated flag differs, so the pair is not preserved. -/
theorem truncate_idem_cex :
    truncate_text_for_analysis (truncate_text_for_analysis ['a', 'b'] 1).1 1 ≠
      truncate_text_for_analysis ['a', 'b'] 1 := by
  decide

/-- C5 (amended): re-preparing already-prepared text leaves the text
component unchanged, but always with the truncated flag `false`; the full
pair is preserved only when the original text was within the limit. -/
theorem truncate_reprepare (text : List Char) (max_chars : Int)
    (hpos : 0 < max_chars) :
    truncate_text_for_analysis
        ((truncate_text_for_analysis text max_chars).1) max_chars =
      ((truncate_text_for_analysis text max_chars).1, false) :=
  truncate_eq_of_le _ _ (truncate_fst_length_le text max_chars (le_of_lt hpos))

/-- Witness for the amended C5 at `text = "xyz"`, `max_chars = 2`. -/
theorem truncate_reprepare_check :
    truncate_text_for_analysis
        ((truncate_text_for_analysis ['x', 'y', 'z'] 2).1) 2 =
      ((truncate_text_for_analysis ['x', 'y', 'z'] 2).1, false) :=
  truncate_reprepare ['x', 'y', 'z'] 2 (by decide)

/-- C6 counterexample: at `max_chars = 0` on the nonempty text `"a"` the
code does not fail: it silently returns the empty text with the truncated
flag `true`.  There is no validation of `max_chars` and no `InvalidPolicy`
error anywhere in `truncate_text_for_analysis`; the embedding is a total
function. -/
theorem truncate_invalid_policy_cex :
    truncate_text_for_analysis ['a'] 0 = ([], true) := by
  decide

/-- C6 (amended): for `max_chars ≤ 0` and nonempty text the operation
does not fail; it silently returns a result with the truncated flag
`true`, and at `max_chars = 0` that result is the empty text. -/
theorem truncate_invalid_policy_behavior (text : List Char) (max_chars : Int)
    (hmc : max_chars ≤ 0) (hne : text ≠ []) :
    (truncate_text_for_analysis text max_chars).2 = true ∧
      (truncate_text_for_analysis text 0).1 = [] := by
  have hlen : 0 < text.length := List.length_pos.mpr hne
  have h0 : ¬ (text.length : Int) ≤ 0 := by omega
  constructor
  · exact truncate_snd_true text max_chars (by omega)
  · rw [truncate_eq_of_lt text 0 h0]
    have hP : pySliceTo text 0 = [] := by
      unfold pySliceTo
      simp
    have hb : bnd text 0 = -1 := by
      unfold bnd
      rw [hP]
      decide
    rw [hb, if_neg (by omega), hP]

/-- Witness for the amended C6 at `text = "q"`, `max_chars = -3`. -/
theorem truncate_invalid_policy_behavior_check :
    (truncate_text_for_analysis ['q'] (-3)).2 = true ∧
      (truncate_text_for_analysis ['q'] 0).1 = [] :=
  truncate_invalid_policy_behavior ['q'] (-3) (by decide) (by decide)

/-- C7: `truncate_text_for_analysis` is total and deterministic: on every
input it returns a well-defined result, and two calls on equal inputs
return equal results.  Purity and absence of exceptions hold by
construction of the embedding: the source body performs only `len`,
slicing, `rfind`, `max` and integer/float comparison, none of which can
raise for the reachable inputs, and it touches no external state. -/
theorem truncate_total_det (t₁ t₂ : List Char) (m₁ m₂ : Int)
    (ht : t₁ = t₂) (hm : m₁ = m₂) :
    (∃ out, truncate_text_for_analysis t₁ m₁ = out) ∧
      truncate_text_for_analysis t₁ m₁ = truncate_text_for_analysis t₂ m₂ := by
  subst ht
  subst hm
  exact ⟨⟨_, rfl⟩, rfl⟩

/-- Witness for C7 at `text = "a"`, `max_chars = 5`. -/
theorem truncate_total_det_check :
    (∃ out, truncate_text_for_analysis ['a'] 5 = out) ∧
      truncate_text_for_analysis ['a'] 5 = truncate_text_for_analysis ['a'] 5 :=
  truncate_total_det ['a'] ['a'] 5 5 rfl rfl

/-- C9: for every text and every integer `max_chars`, the returned text
is an initial segment of the input: some (possibly empty) rest extends it
back to the original text.  The operation never inserts, reorders or
rewrites characters. -/
theorem truncate_initial_segment (text : List Char) (max_chars : Int) :
    ∃ rest, (truncate_text_for_analysis text max_chars).1 ++ rest = text := by
  by_cases h : (text.length : Int) ≤ max_chars
  · rw [truncate_eq_of_le text max_chars h]
    exact ⟨[], List.append_nil text⟩
  · rw [truncate_eq_of_lt text max_chars h]
    split
    · obtain ⟨r₁, hr₁⟩ :=
        pySliceTo_append (pySliceTo text max_chars) (bnd text max_chars + 1)
      obtain ⟨r₂, hr₂⟩ := pySliceTo_append text max_chars
      refine ⟨r₁ ++ r₂, ?_⟩
      show pySliceTo (pySliceTo text max_chars) (bnd text max_chars + 1) ++
        (r₁ ++ r₂) = text
      rw [← List.append_assoc, hr₁, hr₂]
    · obtain ⟨r, hr⟩ := pySliceTo_append text max_chars
      exact ⟨r, hr⟩

/-- C10: for `length(text) > max_chars > 0` the returned text either has
length exactly `max_chars`, or it ends in `'.'` or a newline and its
length exceeds 80% of `max_chars` (`5 * length > 4 * max_chars`): a
boundary cut never discards more than 20% of the budget and always ends
at the boundary character. -/
theorem truncate_cut_shape (text : List Char) (max_chars : Int)
    (hlen : max_chars < (text.length : Int)) (hpos : 0 < max_chars) :
    ((truncate_text_for_analysis text max_chars).1.length : Int) = max_chars ∨
      (((truncate_text_for_analysis text max_chars).1.getLast? = some '.' ∨
        (truncate_text_for_analysis text max_chars).1.getLast? = some '\n') ∧
        4 * max_chars <
          5 * ((truncate_text_for_analysis text max_chars).1.length : Int)) := by
  rw [truncate_eq_of_lt text max_chars (not_le.mpr hlen)]
  by_cases hb : 5 * bnd text max_chars > 4 * max_chars
  · rw [if_pos hb]
    right
    have h0 : 0 ≤ bnd text max_chars := by omega
    have h2 : (bnd text max_chars).toNat < (pySliceTo text max_chars).length := by
      have := bnd_lt_length text max_chars
      omega
    have h1 : pySliceTo (pySliceTo text max_chars) (bnd text max_chars + 1) =
        (pySliceTo text max_chars).take ((bnd text max_chars).toNat + 1) := by
      rw [pySliceTo_eq_take _ _ (by omega)]
      congr 1
      omega
    constructor
    · show (pySliceTo (pySliceTo text max_chars)
          (bnd text max_chars + 1)).getLast? = some '.' ∨
        (pySliceTo (pySliceTo text max_chars)
          (bnd text max_chars + 1)).getLast? = some '\n'
      rw [h1, getLast?_take_succ _ _ h2]
      exact bnd_get text max_chars h0
    · show 4 * max_chars < 5 *
        ((pySliceTo (pySliceTo text max_chars)
          (bnd text max_chars + 1)).length : Int)
      rw [h1, List.length_take]
      have hm : min ((bnd text max_chars).toNat + 1)
          (pySliceTo text max_chars).length =
          (bnd text max_chars).toNat + 1 := by omega
      rw [hm]
      omega
  · rw [if_neg hb]
    left
    show ((pySliceTo text max_chars).length : Int) = max_chars
    exact length_pySliceTo_of_lt text max_chars (le_of_lt hpos) hlen

/-- Witness for C10 at `text = "a" * 7`, `max_chars = 6` (hard-cut side
of the disjunction). -/
theorem truncate_cut_shape_check :
    ((truncate_text_for_analysis (List.replicate 7 'a') 6).1.length : Int) = 6 ∨
      (((truncate_text_for_analysis (List.replicate 7 'a') 6).1.getLast? =
          some '.' ∨
        (truncate_text_for_analysis (List.replicate 7 'a') 6).1.getLast? =
          some '\n') ∧
        4 * (6 : Int) <
          5 * ((truncate_text_for_analysis (List.replicate 7 'a') 6).1.length :
            Int)) :=
  truncate_cut_shape (List.replicate 7 'a') 6 (by decide) (by decide)

/- ### `estimate_tokens` (src/app.py lines 58-65)

The primary branch calls the external `tiktoken` library
(`tiktoken.encoding_for_model(model)` followed by `encode`); any failure
falls back to `len(text) // 4`.  The encoder is not part of this
repository, so it is abstracted as an opaque parameter: `enc text = some n`
models a successful external call counting `n` tokens, `enc text = none`
models the bare `except:` branch being taken. -/

def estimate_tokens (enc : List Char → Option Nat) (text : List Char) : Nat :=
  match enc text with
  | some n => n
  | none => text.length / 4

theorem estimate_tokens_of_enc_failure (enc : List Char → Option Nat)
    (text : List Char) (h : enc text = none) :
    estimate_tokens enc text = estimate_tokens_fallback text := by
  simp [estimate_tokens, estimate_tokens_fallback, h]

theorem estimate_tokens_fallback_eq_div_four (text : List Char) :
    estimate_tokens_fallback text = text.length / 4 :=
  rfl

theorem estimate_tokens_fallback_mono (s t : List Char)
    (h : s.length ≤ t.length) :
    estimate_tokens_fallback s ≤ estimate_tokens_fallback t :=
  Nat.div_le_div_right h

end DocPrep
